import Mathlib

/-!
Verification development for the kivik CouchDB-style client/server stack.

The development shallowly embeds:
* the in-memory storage engine's revision-tree model and winning-revision
  algorithm (modelled from the spec; the engine's source is not part of the
  visible tree, only its tests),
* the client façade (`kivik.go`): option merging, driver registry lookup,
  capability probing, database-name validation,
* the PouchDB driver's database-creation path (`driver/pouchdb/pouchdb.go`),
* the HTTP basic-auth reference authenticator (`auth/basic/basic.go`).
-/

/-- Error model for the stack.  `status code msg` embeds `errors.Status`;
`plain msg` embeds a bare `fmt.Errorf` error; the named constructors embed the
predefined sentinel errors (`ErrNotImplemented`, `ErrUnauthorized`,
`ErrNotFound`) and the storage engine's typed `Conflict`. -/
inductive KivikError where
  | status (code : Nat) (msg : String)
  | plain (msg : String)
  | notImplemented
  | unauthorized
  | notFound
  | conflict
deriving DecidableEq, Repr

/-! ## Storage-engine revision model (modelled from the spec) -/

/-- Modelled from the spec: a Revision ID is a pair
`(generation-number, content-hash)`, serialized as `"<generation>-<hash>"`.
The storage engine's source is absent from the visible tree. -/
structure RevId where
  gen : Nat
  hash : String
deriving DecidableEq, Repr

/-- Modelled from the spec: the serialized form `"<generation>-<hash>"` of a
revision id. -/
def RevId.fullId (r : RevId) : String :=
  Nat.repr r.gen ++ "-" ++ r.hash

/-- Byte-wise lexicographic strict comparison on character lists, mirroring
the opaque-string comparison of revision ids. -/
def charListLt : List Char → List Char → Bool
  | [], [] => false
  | [], _ :: _ => true
  | _ :: _, [] => false
  | a :: as, b :: bs =>
    if a < b then true
    else if b < a then false
    else charListLt as bs

/-- Lexicographic strict comparison of strings as opaque character sequences. -/
def strLtB (s t : String) : Bool :=
  charListLt s.data t.data

/-- Modelled from the spec: the strict order used by the winning-revision
algorithm — greater generation number wins, ties at equal generation are
broken by the lexicographically greater full revision id string. -/
def RevId.ltB (a b : RevId) : Bool :=
  if a.gen < b.gen then true
  else if b.gen < a.gen then false
  else strLtB a.fullId b.fullId

/-- Modelled from the spec: pick the better of two revision ids under the
winning-revision order. -/
def maxRev (a b : RevId) : RevId :=
  if RevId.ltB a b then b else a

/-- Fold step accumulating the best revision id seen so far. -/
def stepMax (acc : Option RevId) (r : RevId) : Option RevId :=
  match acc with
  | none => some r
  | some m => some (maxRev m r)

/-- Modelled from the spec: the winner among a collection of candidate leaf
revision ids (none when there is no candidate). -/
def pickWinner (l : List RevId) : Option RevId :=
  l.foldl stepMax none

/-- Modelled from the spec: a node of a document's revision tree —
`(revision-id, parent-revision-id-or-none, body-or-tombstone)`. -/
structure RevNode where
  rev : RevId
  parent : Option RevId
  deleted : Bool
  body : String
deriving DecidableEq, Repr

/-- Modelled from the spec: the leaf revisions of a tree — nodes that no
other node names as its parent. -/
def leaves (t : List RevNode) : List RevNode :=
  t.filter (fun n => !(t.any (fun m => m.parent == some n.rev)))

/-- Modelled from the spec: the winning revision of a document's tree — among
all leaf revisions, the one with the greatest generation number, ties broken
by the lexicographically greatest full revision id string. -/
def winningRev (t : List RevNode) : Option RevId :=
  pickWinner ((leaves t).map (fun n => n.rev))

/-- Modelled from the spec: a Change Log Entry
`(sequence-number, document-id, winning-revision-id, deleted-flag)`. -/
structure ChangeEntry where
  seq : Nat
  docID : String
  rev : RevId
  deleted : Bool
deriving DecidableEq, Repr

/-- Modelled from the spec: a database — a mapping from document ID to that
document's revision tree, a monotonically increasing sequence counter, and an
append-only change log. -/
structure Database where
  docs : List (String × List RevNode)
  seq : Nat
  changeLog : List ChangeEntry
deriving DecidableEq, Repr

/-- Replace (or add) the tree bound to a document id. -/
def setDoc (docs : List (String × List RevNode)) (docID : String)
    (t : List RevNode) : List (String × List RevNode) :=
  if docs.any (fun p => p.1 == docID) then
    docs.map (fun p => if p.1 == docID then (docID, t) else p)
  else docs ++ [(docID, t)]

/-- Modelled from the spec: `Put(databaseName, docID, body,
expectedParentRevision)` — if the document does not yet exist the expected
parent revision must be empty, otherwise it must equal the current winning
revision, else the call fails with `Conflict` and the database is unchanged.
On success a new content-addressed revision (computed by `hashFn` from the
parent and the body) is appended as a child of the expected parent, the
sequence counter is bumped and one change-log entry is appended.  The result
pairs the (possibly unchanged) database with the outcome. -/
def putDoc (hashFn : Option RevId → String → String) (db : Database)
    (docID body expectedRev : String) :
    Database × Except KivikError RevId :=
  match db.docs.lookup docID with
  | none =>
    if expectedRev ≠ "" then (db, .error .conflict)
    else
      let newRev : RevId := ⟨1, hashFn none body⟩
      let node : RevNode := ⟨newRev, none, false, body⟩
      let seq' := db.seq + 1
      (⟨setDoc db.docs docID [node], seq',
        db.changeLog ++ [⟨seq', docID, newRev, false⟩]⟩, .ok newRev)
  | some t =>
    match winningRev t with
    | none => (db, .error .conflict)
    | some w =>
      if expectedRev ≠ w.fullId then (db, .error .conflict)
      else
        let newRev : RevId := ⟨w.gen + 1, hashFn (some w) body⟩
        let node : RevNode := ⟨newRev, some w, false, body⟩
        let seq' := db.seq + 1
        (⟨setDoc db.docs docID (t ++ [node]), seq',
          db.changeLog ++ [⟨seq', docID, newRev, false⟩]⟩, .ok newRev)

/-! ## Client façade (`kivik.go`) -/

/-- Embeds `Options` (`map[string]interface{}`): a finite-support map from
option key to value, modelled extensionally as a function from keys to an
optional value.  The value type is a parameter, matching the backend-specific
`interface{}` values the façade never inspects. -/
def Opts (α : Type) : Type := String → Option α

/-- Embeds one step of the `mergo.MergeWithOverwrite(&options, opts)` loop of
`mergeOptions`: every key present in `src` overrides the same key in `dst`,
keys absent from `src` keep their `dst` value. -/
def mergeTwo {α : Type} (dst src : Opts α) : Opts α :=
  fun k => match src k with
  | some v => some v
  | none => dst k

/-- Embeds `mergeOptions` (`kivik.go`): the option sets are merged
left-to-right starting from the empty set, later sets overriding earlier keys
on conflict. -/
def mergeOptions {α : Type} (otherOpts : List (Opts α)) : Opts α :=
  otherOpts.foldl mergeTwo (fun _ => none)

/-- Embeds the optional and mandatory capability surface of `driver.Client`.
The mandatory operations are fields holding arbitrary backend behaviour; each
optional capability (`driver.UUIDer`, `driver.Cluster`, `driver.LogReader`,
`driver.Authenticator`) is an `Option`al field — `none` embeds a concrete Go
type that does not satisfy the corresponding interface, so the façade's
runtime type assertion fails. -/
structure DriverClient (α : Type) where
  serverInfo : Opts α → Except KivikError String
  allDBs : Opts α → Except KivikError (List String)
  db : String → Opts α → Option Nat × Option KivikError
  dbExists : String → Opts α → Except KivikError Bool
  createDB : String → Opts α → Option KivikError
  destroyDB : String → Opts α → Option KivikError
  uuider : Option (Int → Except KivikError (List String))
  cluster : Option (Unit → Except KivikError (List String × List String))
  logReader : Option (Int → Int → Except KivikError Nat)
  authenticator : Option (Nat → Option KivikError)

/-- Embeds `driver.Driver`: a constructor capability registered under a
driver name. -/
structure Driver (α : Type) where
  newClientContext : String → Except KivikError (DriverClient α)

/-- Embeds `kivik.Client`: data-source name, driver name, and the wrapped
driver-specific client. -/
structure Client (α : Type) where
  dsn : String
  driverName : String
  driverClient : DriverClient α

/-- Embeds `NewContext` (`kivik.go`): look up the named constructor in the
driver registry; if absent fail with the `unknown driver` error naming the
requested driver (and return no client); otherwise invoke the constructor and
wrap its result. -/
def NewContext {α : Type} (drivers : List (String × Driver α))
    (driverName dataSourceName : String) : Except KivikError (Client α) :=
  match drivers.lookup driverName with
  | none => .error (.plain ("kivik: unknown driver \"" ++ driverName ++
      "\" (forgotten import?)"))
  | some driveri =>
    match driveri.newClientContext dataSourceName with
    | .error e => .error e
    | .ok client => .ok ⟨dataSourceName, driverName, client⟩

/-- Embeds `Client.UUIDsContext`: a strictly negative count fails with
`BadRequest` before the capability probe; otherwise the call is forwarded to
the backend's UUID generator when present and fails with `NotImplemented`
when absent. -/
def Client.uuidsContext {α : Type} (c : Client α) (count : Int) :
    Except KivikError (List String) :=
  if count < 0 then .error (.status 400 "count must be a positive integer")
  else match c.driverClient.uuider with
    | some uuider => uuider count
    | none => .error .notImplemented

/-- Embeds `Client.MembershipContext`: forwarded when the backend satisfies
`driver.Cluster`, `NotImplemented` otherwise. -/
def Client.membershipContext {α : Type} (c : Client α) :
    Except KivikError (List String × List String) :=
  match c.driverClient.cluster with
  | some cluster => cluster ()
  | none => .error .notImplemented

/-- Embeds `Client.AuthenticateContext`: forwarded when the backend satisfies
`driver.Authenticator`, `NotImplemented` otherwise (`none` embeds a nil
error, i.e. success). -/
def Client.authenticateContext {α : Type} (c : Client α) (a : Nat) :
    Option KivikError :=
  match c.driverClient.authenticator with
  | some auth => auth a
  | none => some .notImplemented

/-- Embeds `Client.AllDBsContext`: merge the option sets and forward the
single effective set to the backend. -/
def Client.allDBsContext {α : Type} (c : Client α)
    (options : List (Opts α)) : Except KivikError (List String) :=
  c.driverClient.allDBs (mergeOptions options)

/-- Character class of the CouchDB database-name pattern (`validDBName` in
`kivik.go`), tail position: a lowercase letter, a digit, or one of
`_ $ ( ) + slash hyphen`. -/
def dbNameChar (c : Char) : Bool :=
  ('a' ≤ c && c ≤ 'z') || ('0' ≤ c && c ≤ '9') || c == '_' || c == '$' ||
    c == '(' || c == ')' || c == '+' || c == '/' || c == '-'

/-- Embeds `validDBName.MatchString`: the anchored CouchDB database-name
pattern — a lowercase letter followed by characters of the class above. -/
def validDBName (s : String) : Bool :=
  match s.data with
  | [] => false
  | c :: rest => ('a' ≤ c && c ≤ 'z') && rest.all dbNameChar

/-- Embeds `Client.CreateDBContext`: merge the option sets, reject an invalid
database name with `BadRequest` without touching the backend, otherwise
forward to the backend's `CreateDBContext`. -/
def Client.createDBContext {α : Type} (c : Client α) (dbName : String)
    (options : List (Opts α)) : Option KivikError :=
  let opts := mergeOptions options
  if !validDBName dbName then some (.status 400 "invalid database name")
  else c.driverClient.createDB dbName opts

/-- Embeds `kivik.DB`: a wrapper holding the driver database handle, which
may itself be absent (a nil `driver.DB` interface value). -/
structure DB where
  driverDB : Option Nat
deriving DecidableEq, Repr

/-- Embeds `Client.DBContext`: merge the option sets, call the backend, and
return a freshly allocated wrapper around the driver handle together with the
backend's error — `return &DB{driverDB: db}, err` always yields a non-nil
wrapper. -/
def Client.dbContext {α : Type} (c : Client α) (dbName : String)
    (options : List (Opts α)) : Option DB × Option KivikError :=
  let opts := mergeOptions options
  let res := c.driverClient.db dbName opts
  (some ⟨res.1⟩, res.2)

/-! ## Basic-auth reference authenticator (`auth/basic/basic.go`) -/

/-- Embeds `authdb.UserContext`: validated username plus backend-supplied
claims (roles). -/
structure UserContext where
  name : String
  roles : List String
deriving DecidableEq, Repr

/-- Embeds the backend user-validation service
(`store.Validate(ctx, username, password)`). -/
structure UserStore where
  validate : String → String → Except KivikError UserContext

/-- Embeds the part of an HTTP request the basic authenticator consumes:
`r.BasicAuth()` — `none` when the request carries no (well-formed)
basic-auth credential header. -/
structure Request where
  basicAuth : Option (String × String)

/-- Embeds `HTTPBasicAuth.Authenticate` (`auth/basic/basic.go`): without
credentials fail with `Unauthorized` and return no UserContext; with
credentials delegate the decision to the user store. -/
def httpBasicAuthenticate (store : UserStore) (r : Request) :
    Except KivikError UserContext :=
  match r.basicAuth with
  | none => .error .unauthorized
  | some (username, password) => store.validate username password

/-! ## PouchDB driver database creation (`driver/pouchdb/pouchdb.go`) -/

/-- State of the external PouchDB engine: the set of existing databases.
The engine itself is an external binding; its behaviour is modelled from the
repository's own comments: `Info` on a local database creates it (even under
`skip_setup`), while on a remote database with `skip_setup` it reports 404
for a missing database and succeeds without creating an existing one. -/
structure PouchState where
  dbs : List String
deriving DecidableEq, Repr

/-- Add a database name to the engine state (idempotent). -/
def PouchState.create (st : PouchState) (name : String) : PouchState :=
  if name ∈ st.dbs then st else ⟨st.dbs ++ [name]⟩

/-- Modelled from the spec and the driver's comments:
`c.pouch.New(url, opts).Info(ctx)`.  For a remote database with `skip_setup`
set, a missing database yields a 404 status and an existing one succeeds
without mutation; otherwise the call creates the database as needed and
succeeds. -/
def pouchInfo (st : PouchState) (name : String) (skipSetup remote : Bool) :
    Except KivikError PouchState :=
  if remote && skipSetup then
    if name ∈ st.dbs then .ok st
    else .error (.status 404 "missing")
  else .ok (st.create name)

/-- Embeds the pouchdb `client`: `remote` is `c.dsn != nil`. -/
structure PouchClient where
  remote : Bool
deriving DecidableEq, Repr

/-- Embeds pouchdb `client.DBExistsContext`: query `Info` with
`skip_setup: true`; success means the database exists, a 404 status means it
does not, any other error propagates. -/
def PouchClient.dbExistsContext (c : PouchClient) (st : PouchState)
    (dbName : String) : Except KivikError (Bool × PouchState) :=
  match pouchInfo st dbName true c.remote with
  | .ok st2 => .ok (true, st2)
  | .error e =>
    match e with
    | .status 404 _ => .ok (false, st)
    | _ => .error e

/-- Embeds pouchdb `client.CreateDBContext`: only for a remote client is the
existence check performed, failing with `PreconditionFailed` (412,
`"database exists"`) when the database exists (an error from the check is
swallowed and treated as non-existence); then the database is opened/created
via `Info` without `skip_setup`. -/
def PouchClient.createDBContext (c : PouchClient) (st : PouchState)
    (dbName : String) : Except KivikError PouchState :=
  if c.remote then
    match c.dbExistsContext st dbName with
    | .ok (true, _) => .error (.status 412 "database exists")
    | .ok (false, st2) => pouchInfo st2 dbName false c.remote
    | .error _ => pouchInfo st dbName false c.remote
  else pouchInfo st dbName false c.remote

/-! ## Concrete fixtures used to instantiate the theorems -/

/-- A backend implementing only the mandatory contract: every optional
capability is absent. -/
def unitBackend : DriverClient Unit :=
  ⟨fun _ => .ok "", fun _ => .ok [], fun _ _ => (none, none),
    fun _ _ => .ok true, fun _ _ => none, fun _ _ => none,
    none, none, none, none⟩

/-- A client over `unitBackend`. -/
def noCapClient : Client Unit :=
  ⟨"dsn", "drv", unitBackend⟩

/-- A backend additionally implementing the UUID-generation capability. -/
def uuidBackend : DriverClient Unit :=
  { unitBackend with uuider := some (fun _ => .ok ["u"]) }

/-- A client over `uuidBackend`. -/
def uuidClient : Client Unit :=
  ⟨"dsn", "drv", uuidBackend⟩

/-! ## Order lemmas for the winning-revision comparison -/

theorem charListLt_asymm : ∀ {a b : List Char},
    charListLt a b = true → charListLt b a = false := by
  intro a
  induction a with
  | nil => intro b h; cases b <;> simp [charListLt] at *
  | cons x xs ih =>
    intro b h
    cases b with
    | nil => simp [charListLt] at h
    | cons y ys =>
      simp only [charListLt] at h ⊢
      by_cases hxy : x < y
      · rw [if_neg (lt_asymm hxy), if_pos hxy]
      · rw [if_neg hxy] at h
        by_cases hyx : y < x
        · rw [if_pos hyx] at h; exact absurd h (by simp)
        · rw [if_neg hyx] at h
          rw [if_neg hyx, if_neg hxy]
          exact ih h

theorem charListLt_trans : ∀ {a b c : List Char},
    charListLt a b = true → charListLt b c = true → charListLt a c = true := by
  intro a
  induction a with
  | nil =>
    intro b c h1 h2
    cases b with
    | nil => simp [charListLt] at h1
    | cons y ys =>
      cases c with
      | nil => simp [charListLt] at h2
      | cons z zs => simp [charListLt]
  | cons x xs ih =>
    intro b c h1 h2
    cases b with
    | nil => simp [charListLt] at h1
    | cons y ys =>
      cases c with
      | nil => simp [charListLt] at h2
      | cons z zs =>
        simp only [charListLt] at h1 h2 ⊢
        by_cases hxy : x < y
        · by_cases hyz : y < z
          · rw [if_pos (lt_trans hxy hyz)]
          · rw [if_neg hyz] at h2
            by_cases hzy : z < y
            · rw [if_pos hzy] at h2; exact absurd h2 (by simp)
            · have hyzeq : y = z := le_antisymm (le_of_not_lt hzy) (le_of_not_lt hyz)
              rw [if_pos (hyzeq ▸ hxy)]
        · rw [if_neg hxy] at h1
          by_cases hyx : y < x
          · rw [if_pos hyx] at h1; exact absurd h1 (by simp)
          · rw [if_neg hyx] at h1
            have hxyeq : x = y := le_antisymm (le_of_not_lt hyx) (le_of_not_lt hxy)
            subst hxyeq
            by_cases hyz : x < z
            · rw [if_pos hyz]
            · rw [if_neg hyz] at h2 ⊢
              by_cases hzy : z < x
              · rw [if_pos hzy] at h2; exact absurd h2 (by simp)
              · rw [if_neg hzy] at h2 ⊢
                exact ih h1 h2

theorem charListLt_total : ∀ {a b : List Char},
    charListLt a b = false → charListLt b a = false → a = b := by
  intro a
  induction a with
  | nil =>
    intro b h1 _
    cases b with
    | nil => rfl
    | cons y ys => simp [charListLt] at h1
  | cons x xs ih =>
    intro b h1 h2
    cases b with
    | nil => simp [charListLt] at h2
    | cons y ys =>
      simp only [charListLt] at h1 h2
      by_cases hxy : x < y
      · rw [if_pos hxy] at h1; exact absurd h1 (by simp)
      · rw [if_neg hxy] at h1
        by_cases hyx : y < x
        · rw [if_pos hyx] at h2; exact absurd h2 (by simp)
        · rw [if_neg hyx] at h1
          rw [if_neg hyx, if_neg hxy] at h2
          have hxyeq : x = y := le_antisymm (le_of_not_lt hyx) (le_of_not_lt hxy)
          rw [hxyeq, ih h1 h2]

theorem strLtB_asymm {s t : String} (h : strLtB s t = true) : strLtB t s = false :=
  charListLt_asymm h

theorem strLtB_trans {s t u : String} (h1 : strLtB s t = true)
    (h2 : strLtB t u = true) : strLtB s u = true :=
  charListLt_trans h1 h2

theorem strLtB_total {s t : String} (h1 : strLtB s t = false)
    (h2 : strLtB t s = false) : s = t := by
  have hd : s.data = t.data := charListLt_total h1 h2
  cases s; cases t; simp_all

theorem string_append_cancel_left {s t u : String} (h : s ++ t = s ++ u) :
    t = u := by
  have hd : (s ++ t).data = (s ++ u).data := by rw [h]
  rw [String.data_append, String.data_append] at hd
  have hd2 := List.append_cancel_left hd
  cases t; cases u; simp_all

theorem fullId_inj {a b : RevId} (hg : a.gen = b.gen)
    (hf : a.fullId = b.fullId) : a = b := by
  unfold RevId.fullId at hf
  rw [hg] at hf
  have : a.hash = b.hash := string_append_cancel_left hf
  cases a; cases b; simp_all

theorem ltB_asymm {a b : RevId} (h : RevId.ltB a b = true) :
    RevId.ltB b a = false := by
  unfold RevId.ltB at h ⊢
  by_cases hab : a.gen < b.gen
  · rw [if_neg (Nat.lt_asymm hab), if_pos hab]
  · rw [if_neg hab] at h
    by_cases hba : b.gen < a.gen
    · rw [if_pos hba] at h; exact absurd h (by simp)
    · rw [if_neg hba] at h
      rw [if_neg hba, if_neg hab]
      exact strLtB_asymm h

theorem ltB_trans {a b c : RevId} (h1 : RevId.ltB a b = true)
    (h2 : RevId.ltB b c = true) : RevId.ltB a c = true := by
  unfold RevId.ltB at h1 h2 ⊢
  by_cases hab : a.gen < b.gen
  · by_cases hbc : b.gen < c.gen
    · rw [if_pos (Nat.lt_trans hab hbc)]
    · rw [if_neg hbc] at h2
      by_cases hcb : c.gen < b.gen
      · rw [if_pos hcb] at h2; exact absurd h2 (by simp)
      · have : b.gen = c.gen := Nat.le_antisymm (Nat.le_of_not_lt hcb) (Nat.le_of_not_lt hbc)
        rw [if_pos (this ▸ hab)]
  · rw [if_neg hab] at h1
    by_cases hba : b.gen < a.gen
    · rw [if_pos hba] at h1; exact absurd h1 (by simp)
    · rw [if_neg hba] at h1
      have hg : a.gen = b.gen := Nat.le_antisymm (Nat.le_of_not_lt hba) (Nat.le_of_not_lt hab)
      by_cases hbc : b.gen < c.gen
      · rw [if_pos (hg ▸ hbc)]
      · rw [if_neg hbc] at h2
        by_cases hcb : c.gen < b.gen
        · rw [if_pos hcb] at h2; exact absurd h2 (by simp)
        · rw [if_neg hcb] at h2
          rw [if_neg (hg ▸ hbc : ¬ a.gen < c.gen), if_neg (hg ▸ hcb : ¬ c.gen < a.gen)]
          exact strLtB_trans h1 h2

theorem ltB_total {a b : RevId} (h1 : RevId.ltB a b = false)
    (h2 : RevId.ltB b a = false) : a = b := by
  unfold RevId.ltB at h1 h2
  by_cases hab : a.gen < b.gen
  · rw [if_pos hab] at h1; exact absurd h1 (by simp)
  · rw [if_neg hab] at h1
    by_cases hba : b.gen < a.gen
    · rw [if_pos hba] at h2; exact absurd h2 (by simp)
    · rw [if_neg hba] at h1
      rw [if_neg hba, if_neg hab] at h2
      have hg : a.gen = b.gen := Nat.le_antisymm (Nat.le_of_not_lt hba) (Nat.le_of_not_lt hab)
      exact fullId_inj hg (strLtB_total h1 h2)

theorem maxRev_comm (a b : RevId) : maxRev a b = maxRev b a := by
  unfold maxRev
  cases hab : RevId.ltB a b with
  | true => rw [if_pos rfl, if_neg (by rw [ltB_asymm hab]; simp)]
  | false =>
    rw [if_neg (by simp)]
    cases hba : RevId.ltB b a with
    | true => rw [if_pos rfl]
    | false => rw [if_neg (by simp)]; exact ltB_total hab hba

theorem bool_eq_false_of_ne_true {b : Bool} (h : ¬ b = true) : b = false := by
  cases b
  · rfl
  · exact absurd rfl h

theorem maxRev_assoc (a b c : RevId) :
    maxRev (maxRev a b) c = maxRev a (maxRev b c) := by
  unfold maxRev
  by_cases hab : RevId.ltB a b = true
  · by_cases hbc : RevId.ltB b c = true
    · simp only [if_pos hab, if_pos hbc, if_pos (ltB_trans hab hbc)]
    · simp only [if_pos hab, if_neg hbc]
  · by_cases hbc : RevId.ltB b c = true
    · simp only [if_neg hab, if_pos hbc]
    · have hac : ¬ RevId.ltB a c = true := by
        intro hac
        by_cases hba : RevId.ltB b a = true
        · exact hbc (ltB_trans hba hac)
        · have heq : a = b :=
            ltB_total (bool_eq_false_of_ne_true hab) (bool_eq_false_of_ne_true hba)
          exact hbc (heq ▸ hac)
      simp only [if_neg hab, if_neg hbc, if_neg hac]

theorem maxRev_right_comm (a b c : RevId) :
    maxRev (maxRev a b) c = maxRev (maxRev a c) b := by
  rw [maxRev_assoc, maxRev_assoc, maxRev_comm b c]

/-! ## Permutation invariance and maximality of the winner -/

theorem stepMax_right_comm (acc : Option RevId) (b c : RevId) :
    stepMax (stepMax acc b) c = stepMax (stepMax acc c) b := by
  cases acc with
  | none => simp [stepMax, maxRev_comm]
  | some m => simp [stepMax, maxRev_right_comm]

theorem foldl_stepMax_perm {l₁ l₂ : List RevId} (p : l₁.Perm l₂) :
    ∀ acc, l₁.foldl stepMax acc = l₂.foldl stepMax acc := by
  induction p with
  | nil => intro acc; rfl
  | cons x _ ih => intro acc; simp only [List.foldl_cons]; exact ih _
  | swap x y l => intro acc; simp only [List.foldl_cons]; rw [stepMax_right_comm]
  | trans _ _ ih₁ ih₂ => intro acc; rw [ih₁ acc, ih₂ acc]

theorem pickWinner_perm {l₁ l₂ : List RevId} (p : l₁.Perm l₂) :
    pickWinner l₁ = pickWinner l₂ :=
  foldl_stepMax_perm p none

theorem any_perm {α : Type} (f : α → Bool) {l₁ l₂ : List α} (h : l₁.Perm l₂) :
    l₁.any f = l₂.any f := by
  apply Bool.eq_iff_iff.mpr
  simp only [List.any_eq_true]
  constructor <;> rintro ⟨x, hx, hf⟩
  · exact ⟨x, h.mem_iff.mp hx, hf⟩
  · exact ⟨x, h.mem_iff.mpr hx, hf⟩

theorem leaves_perm {t₁ t₂ : List RevNode} (h : t₁.Perm t₂) :
    (leaves t₁).Perm (leaves t₂) := by
  unfold leaves
  have hp : (fun n : RevNode => !(t₁.any (fun m => m.parent == some n.rev))) =
      (fun n : RevNode => !(t₂.any (fun m => m.parent == some n.rev))) :=
    funext fun n => by rw [any_perm _ h]
  rw [hp]
  exact h.filter _

theorem winningRev_perm {t₁ t₂ : List RevNode} (h : t₁.Perm t₂) :
    winningRev t₁ = winningRev t₂ :=
  pickWinner_perm ((leaves_perm h).map _)

/-- Reflexive closure of the winning-revision order. -/
def RevLe (a b : RevId) : Prop := a = b ∨ RevId.ltB a b = true

theorem revLe_trans {a b c : RevId} (h1 : RevLe a b) (h2 : RevLe b c) :
    RevLe a c := by
  rcases h1 with h1 | h1
  · exact h1 ▸ h2
  · rcases h2 with h2 | h2
    · exact Or.inr (h2 ▸ h1)
    · exact Or.inr (ltB_trans h1 h2)

theorem revLe_maxRev_left (a b : RevId) : RevLe a (maxRev a b) := by
  unfold maxRev
  by_cases h : RevId.ltB a b = true
  · rw [if_pos h]; exact Or.inr h
  · rw [if_neg h]; exact Or.inl rfl

theorem revLe_maxRev_right (a b : RevId) : RevLe b (maxRev a b) := by
  rw [maxRev_comm]
  exact revLe_maxRev_left b a

theorem maxRev_cases (a b : RevId) : maxRev a b = a ∨ maxRev a b = b := by
  unfold maxRev
  by_cases h : RevId.ltB a b = true
  · rw [if_pos h]; exact Or.inr rfl
  · rw [if_neg h]; exact Or.inl rfl

theorem foldl_stepMax_some {l : List RevId} : ∀ {m w : RevId},
    l.foldl stepMax (some m) = some w →
    RevLe m w ∧ (w = m ∨ w ∈ l) ∧ ∀ r ∈ l, RevLe r w := by
  induction l with
  | nil =>
    intro m w h
    simp only [List.foldl_nil, Option.some.injEq] at h
    exact ⟨Or.inl h, Or.inl h.symm, by simp⟩
  | cons x xs ih =>
    intro m w h
    simp only [List.foldl_cons, stepMax] at h
    obtain ⟨h1, h2, h3⟩ := ih h
    refine ⟨revLe_trans (revLe_maxRev_left m x) h1, ?_, ?_⟩
    · rcases h2 with h2 | h2
      · rcases maxRev_cases m x with hm | hm
        · exact Or.inl (h2.trans hm)
        · exact Or.inr (by rw [h2, hm]; exact List.mem_cons_self x xs)
      · exact Or.inr (List.mem_cons_of_mem x h2)
    · intro r hr
      rcases List.mem_cons.mp hr with hr | hr
      · exact hr ▸ revLe_trans (revLe_maxRev_right m x) h1
      · exact h3 r hr

theorem pickWinner_spec {l : List RevId} {w : RevId}
    (h : pickWinner l = some w) : w ∈ l ∧ ∀ r ∈ l, RevLe r w := by
  cases l with
  | nil => simp [pickWinner] at h
  | cons x xs =>
    unfold pickWinner at h
    simp only [List.foldl_cons, stepMax] at h
    obtain ⟨h1, h2, h3⟩ := foldl_stepMax_some h
    refine ⟨?_, ?_⟩
    · rcases h2 with h2 | h2
      · exact h2 ▸ List.mem_cons_self x xs
      · exact List.mem_cons_of_mem x h2
    · intro r hr
      rcases List.mem_cons.mp hr with hr | hr
      · exact hr ▸ h1
      · exact h3 r hr

/-- C1: for every document revision tree, applying the same set of
conflicting edits in any permutation yields the same winning revision id —
`winningRev` is invariant under permutation of the tree's edit set — and the
winner is a leaf revision that has the greatest generation number, ties at the
maximum generation broken by selecting the lexicographically greatest full
revision id string (every other leaf is strictly below it in that order). -/
theorem winning_revision_deterministic (t₁ t₂ : List RevNode) (w : RevId)
    (hperm : t₁.Perm t₂) :
    winningRev t₁ = winningRev t₂ ∧
    (winningRev t₁ = some w →
      (∃ n, n ∈ leaves t₁ ∧ n.rev = w) ∧
      ∀ n, n ∈ leaves t₁ → n.rev = w ∨ RevId.ltB n.rev w = true) := by
  refine ⟨winningRev_perm hperm, fun hw => ?_⟩
  obtain ⟨hmem, hdom⟩ := pickWinner_spec hw
  constructor
  · obtain ⟨n, hn, hrev⟩ := List.mem_map.mp hmem
    exact ⟨n, hn, hrev⟩
  · intro n hn
    exact hdom n.rev (List.mem_map_of_mem _ hn)

theorem winning_revision_deterministic_witness :
    winningRev [⟨⟨2, "ccc"⟩, some ⟨1, "aaa"⟩, false, "z"⟩,
        ⟨⟨1, "aaa"⟩, none, false, "x"⟩,
        ⟨⟨2, "bbb"⟩, some ⟨1, "aaa"⟩, false, "y"⟩] =
      winningRev [⟨⟨1, "aaa"⟩, none, false, "x"⟩,
        ⟨⟨2, "bbb"⟩, some ⟨1, "aaa"⟩, false, "y"⟩,
        ⟨⟨2, "ccc"⟩, some ⟨1, "aaa"⟩, false, "z"⟩] ∧
    (winningRev [⟨⟨2, "ccc"⟩, some ⟨1, "aaa"⟩, false, "z"⟩,
        ⟨⟨1, "aaa"⟩, none, false, "x"⟩,
        ⟨⟨2, "bbb"⟩, some ⟨1, "aaa"⟩, false, "y"⟩] = some ⟨2, "ccc"⟩ →
      (∃ n, n ∈ leaves [⟨⟨2, "ccc"⟩, some ⟨1, "aaa"⟩, false, "z"⟩,
          ⟨⟨1, "aaa"⟩, none, false, "x"⟩,
          ⟨⟨2, "bbb"⟩, some ⟨1, "aaa"⟩, false, "y"⟩] ∧ n.rev = ⟨2, "ccc"⟩) ∧
      ∀ n, n ∈ leaves [⟨⟨2, "ccc"⟩, some ⟨1, "aaa"⟩, false, "z"⟩,
          ⟨⟨1, "aaa"⟩, none, false, "x"⟩,
          ⟨⟨2, "bbb"⟩, some ⟨1, "aaa"⟩, false, "y"⟩] →
        n.rev = ⟨2, "ccc"⟩ ∨ RevId.ltB n.rev ⟨2, "ccc"⟩ = true) :=
  winning_revision_deterministic _ _ ⟨2, "ccc"⟩ (by decide)

/-- C2: for every database state and every `Put` whose expected parent
revision is neither empty on a missing document nor equal to the serialized
current winning revision of an existing document, `Put` fails with `Conflict`
and returns the database unchanged — the revision tree and the change log are
untouched. -/
theorem put_stale_conflict (hashFn : Option RevId → String → String)
    (db : Database) (docID body expectedRev : String)
    (hstale : (db.docs.lookup docID = none ∧ expectedRev ≠ "") ∨
      (∃ t, db.docs.lookup docID = some t ∧
        (winningRev t).map RevId.fullId ≠ some expectedRev)) :
    putDoc hashFn db docID body expectedRev = (db, .error .conflict) := by
  unfold putDoc
  split
  · next hlook =>
    rcases hstale with ⟨_, hne⟩ | ⟨t, hsome, _⟩
    · rw [if_pos hne]
    · rw [hlook] at hsome
      exact absurd hsome (by simp)
  · next t hlook =>
    rcases hstale with ⟨hnone, _⟩ | ⟨t2, hsome, hne⟩
    · rw [hlook] at hnone
      exact absurd hnone (by simp)
    · rw [hlook] at hsome
      injection hsome with ht
      subst ht
      split
      · rfl
      · next w hw =>
        rw [hw] at hne
        simp only [Option.map_some'] at hne
        have hne2 : expectedRev ≠ w.fullId := fun he => hne (by rw [he])
        rw [if_pos hne2]

theorem put_stale_conflict_witness :
    putDoc (fun _ _ => "h") ⟨[("doc1", [⟨⟨1, "abc"⟩, none, false, "b"⟩])], 1,
        [⟨1, "doc1", ⟨1, "abc"⟩, false⟩]⟩ "doc1" "b2" "1-zzz" =
      (⟨[("doc1", [⟨⟨1, "abc"⟩, none, false, "b"⟩])], 1,
        [⟨1, "doc1", ⟨1, "abc"⟩, false⟩]⟩, .error .conflict) :=
  put_stale_conflict _ _ "doc1" "b2" "1-zzz"
    (Or.inr ⟨[⟨⟨1, "abc"⟩, none, false, "b"⟩], by decide, by decide⟩)

/-! ## Façade theorems -/

theorem findSome_append {α β : Type} (f : α → Option β) (l₁ l₂ : List α) :
    List.findSome? f (l₁ ++ l₂) =
      (List.findSome? f l₁).orElse (fun _ => List.findSome? f l₂) := by
  induction l₁ with
  | nil => simp [List.findSome?_nil, Option.orElse]
  | cons x xs ih =>
    simp only [List.cons_append, List.findSome?_cons]
    cases f x <;> simp [Option.orElse, ih]

theorem foldl_mergeTwo_spec {α : Type} (sets : List (Opts α)) :
    ∀ (acc : Opts α) (k : String),
      (sets.foldl mergeTwo acc) k =
        ((sets.reverse).findSome? (fun o => o k)).orElse (fun _ => acc k) := by
  induction sets with
  | nil => intro acc k; simp [List.findSome?_nil, Option.orElse]
  | cons s rest ih =>
    intro acc k
    simp only [List.foldl_cons, List.reverse_cons]
    rw [ih (mergeTwo acc s) k, findSome_append]
    cases hrest : (rest.reverse).findSome? (fun o => o k) with
    | some v => simp [Option.orElse]
    | none =>
      simp only [Option.orElse, List.findSome?_cons, List.findSome?_nil]
      cases hs : s k with
      | some v => simp [mergeTwo, hs]
      | none => simp [mergeTwo, hs]

/-- C3: the effective option set of a façade call is the left-to-right merge
of the given option sets — for every key the effective value is the value in
the last (rightmost) set defining the key — and the façade passes exactly
this single merged set to the backend (shown for `AllDBsContext`). -/
theorem merge_options_last_write_wins {α : Type} (c : Client α)
    (sets : List (Opts α)) (k : String) :
    mergeOptions sets k = (sets.reverse).findSome? (fun o => o k) ∧
    Client.allDBsContext c sets = c.driverClient.allDBs (mergeOptions sets) := by
  constructor
  · unfold mergeOptions
    rw [foldl_mergeTwo_spec sets _ k]
    cases h : (sets.reverse).findSome? (fun o => o k) <;> simp [Option.orElse]
  · rfl

/-- C4: `NewContext` with a driver name absent from the registry fails with
the `unknown driver` error whose message names the requested driver, and no
client handle is returned. -/
theorem new_client_driver_not_found {α : Type}
    (drivers : List (String × Driver α)) (driverName dsn : String)
    (h : drivers.lookup driverName = none) :
    NewContext drivers driverName dsn =
      .error (.plain ("kivik: unknown driver \"" ++ driverName ++
        "\" (forgotten import?)")) ∧
    ∀ c : Client α, NewContext drivers driverName dsn ≠ .ok c := by
  have h1 : NewContext drivers driverName dsn =
      .error (.plain ("kivik: unknown driver \"" ++ driverName ++
        "\" (forgotten import?)")) := by
    unfold NewContext
    rw [h]
  exact ⟨h1, fun c hc => by rw [h1] at hc; exact Except.noConfusion hc⟩

theorem new_client_driver_not_found_witness :
    NewContext ([] : List (String × Driver Unit)) "couch" "dsn" =
      .error (.plain ("kivik: unknown driver \"couch\" (forgotten import?)")) ∧
    ∀ c : Client Unit, NewContext [] "couch" "dsn" ≠ .ok c :=
  new_client_driver_not_found [] "couch" "dsn" rfl

/-- C5: when the backend does not implement an optional capability, the
corresponding façade operation fails with `NotImplemented`: UUID generation
(for a non-negative count, which passes the preceding validation), cluster
membership, and authentication. -/
theorem optional_capability_not_implemented {α : Type} (c : Client α)
    (count : Int) (a : Nat) (hcount : ¬ count < 0) :
    (c.driverClient.uuider = none →
      c.uuidsContext count = .error .notImplemented) ∧
    (c.driverClient.cluster = none →
      c.membershipContext = .error .notImplemented) ∧
    (c.driverClient.authenticator = none →
      c.authenticateContext a = some .notImplemented) := by
  refine ⟨fun hu => ?_, fun hc => ?_, fun ha => ?_⟩
  · unfold Client.uuidsContext
    rw [if_neg hcount, hu]
  · unfold Client.membershipContext
    rw [hc]
  · unfold Client.authenticateContext
    rw [ha]

theorem optional_capability_not_implemented_witness :
    Client.uuidsContext noCapClient 1 = .error .notImplemented ∧
    Client.membershipContext noCapClient = .error .notImplemented ∧
    Client.authenticateContext noCapClient 0 = some .notImplemented :=
  ⟨(optional_capability_not_implemented noCapClient 1 0 (by decide)).1 rfl,
   (optional_capability_not_implemented noCapClient 1 0 (by decide)).2.1 rfl,
   (optional_capability_not_implemented noCapClient 1 0 (by decide)).2.2 rfl⟩

/-- C9: `UUIDsContext` rejects only strictly negative counts with
`BadRequest` and the message `count must be a positive integer`; a zero count
passes validation and is forwarded to the backend's UUID generator. -/
theorem uuids_count_validation {α : Type} (c : Client α) (count : Int)
    (f : Int → Except KivikError (List String)) (hneg : count < 0) :
    c.uuidsContext count =
      .error (.status 400 "count must be a positive integer") ∧
    (c.driverClient.uuider = some f → c.uuidsContext 0 = f 0) := by
  constructor
  · unfold Client.uuidsContext
    rw [if_pos hneg]
  · intro hf
    unfold Client.uuidsContext
    rw [if_neg (by decide : ¬ (0 : Int) < 0), hf]

theorem uuids_count_validation_witness :
    Client.uuidsContext uuidClient (-1) =
      .error (.status 400 "count must be a positive integer") ∧
    Client.uuidsContext uuidClient 0 = .ok ["u"] :=
  ⟨(uuids_count_validation uuidClient (-1) (fun _ => .ok ["u"]) (by decide)).1,
   by rw [(uuids_count_validation uuidClient (-1)
      (fun _ => .ok ["u"]) (by decide)).2 rfl]⟩

/-- C6: `CreateDBContext` with a database name that fails the CouchDB
database-name pattern returns `BadRequest` (`invalid database name`) for
every backend — the backend's create operation is never invoked. -/
theorem create_db_invalid_name_bad_request {α : Type} (c : Client α)
    (dbName : String) (sets : List (Opts α))
    (h : validDBName dbName = false) :
    Client.createDBContext c dbName sets =
      some (.status 400 "invalid database name") := by
  unfold Client.createDBContext
  simp [h]

theorem create_db_invalid_name_bad_request_witness :
    validDBName "_users" = false ∧
    Client.createDBContext noCapClient "_users" [] =
      some (.status 400 "invalid database name") :=
  ⟨by decide,
   create_db_invalid_name_bad_request noCapClient "_users" [] (by decide)⟩

/-- C10: `DBContext` always returns a wrapper around the (possibly absent)
driver database handle — never a nil wrapper — and returns the backend's
error alongside it, for every backend including ones that fail. -/
theorem db_context_always_wraps {α : Type} (c : Client α) (dbName : String)
    (sets : List (Opts α)) :
    (c.dbContext dbName sets).1 =
      some ⟨(c.driverClient.db dbName (mergeOptions sets)).1⟩ ∧
    (c.dbContext dbName sets).2 =
      (c.driverClient.db dbName (mergeOptions sets)).2 :=
  ⟨rfl, rfl⟩

/-! ## PouchDB driver and basic-auth theorems -/

/-- C7 counterexample: for a local (non-remote) pouchdb client the
existence check is skipped entirely, so creating a database whose name
already exists succeeds instead of failing with `PreconditionFailed`
(412) — the claim as stated is false for local clients. -/
theorem pouch_create_existing_local_succeeds :
    PouchClient.createDBContext ⟨false⟩ ⟨["mydb"]⟩ "mydb" = .ok ⟨["mydb"]⟩ ∧
    PouchClient.createDBContext ⟨false⟩ ⟨["mydb"]⟩ "mydb" ≠
      .error (.status 412 "database exists") := by
  have h1 : PouchClient.createDBContext ⟨false⟩ ⟨["mydb"]⟩ "mydb" =
      .ok ⟨["mydb"]⟩ := rfl
  exact ⟨h1, by rw [h1]; intro hc; exact Except.noConfusion hc⟩

/-- C7 amended: for a remote pouchdb client, creating a database whose name
already exists fails with `PreconditionFailed` (412, `database exists`);
local clients perform no existence check. -/
theorem pouch_create_existing_remote_precondition_failed (st : PouchState)
    (dbName : String) (h : dbName ∈ st.dbs) :
    PouchClient.createDBContext ⟨true⟩ st dbName =
      .error (.status 412 "database exists") := by
  unfold PouchClient.createDBContext PouchClient.dbExistsContext pouchInfo
  simp [h]

theorem pouch_create_existing_remote_precondition_failed_witness :
    PouchClient.createDBContext ⟨true⟩ ⟨["db1"]⟩ "db1" =
      .error (.status 412 "database exists") :=
  pouch_create_existing_remote_precondition_failed ⟨["db1"]⟩ "db1" (by decide)

/-- C8: the basic reference authenticator returns `Unauthorized` and no
UserContext for a request without basic-auth credentials; when credentials
are present the decision is exactly the backend user-validation service's
answer for that username and password. -/
theorem basic_auth_unauthorized_or_delegates (store : UserStore)
    (r : Request) (username password : String) :
    (r.basicAuth = none →
      httpBasicAuthenticate store r = .error .unauthorized ∧
      ∀ u, httpBasicAuthenticate store r ≠ .ok u) ∧
    (r.basicAuth = some (username, password) →
      httpBasicAuthenticate store r = store.validate username password) := by
  constructor
  · intro hnone
    have h1 : httpBasicAuthenticate store r = .error .unauthorized := by
      unfold httpBasicAuthenticate
      rw [hnone]
    exact ⟨h1, fun u hu => by rw [h1] at hu; exact Except.noConfusion hu⟩
  · intro hsome
    unfold httpBasicAuthenticate
    rw [hsome]

theorem basic_auth_unauthorized_or_delegates_witness :
    (httpBasicAuthenticate ⟨fun u _ => .ok ⟨u, []⟩⟩ ⟨none⟩ =
      .error .unauthorized) ∧
    (httpBasicAuthenticate ⟨fun u _ => .ok ⟨u, []⟩⟩
      ⟨some ("bob", "pw")⟩ = .ok ⟨"bob", []⟩) :=
  ⟨((basic_auth_unauthorized_or_delegates ⟨fun u _ => .ok ⟨u, []⟩⟩ ⟨none⟩
      "bob" "pw").1 rfl).1,
   by rw [(basic_auth_unauthorized_or_delegates ⟨fun u _ => .ok ⟨u, []⟩⟩
      ⟨some ("bob", "pw")⟩ "bob" "pw").2 rfl]⟩
